import Mathlib

/-!
Verification development for the pcap statistics aggregation core
(`plugins/heuristics/pcap_stats/pcap_stats.py`).

The Python classes `TimeRecord`, `MachineNode` and `FlowRecord`, and the
dispatcher function `analyze_pcap`, are embedded as pure Lean functions.
Python in-place mutation becomes explicit state passing; Python dicts
become association lists preserving insertion order (new keys are
appended, existing keys are updated in place); an uncaught Python
exception becomes an `Option.none` outcome.  Timestamps are stored as
strings, exactly as the source stores them, and Python truthiness of a
string-or-None field (`if not self.first_sent`) is modelled by
`pyTruthy`: `None` and the empty string are falsy, everything else is
truthy.
-/

namespace PcapStats

/-- One decoded pcap event record, with the fields the core reads:
`src_ip`, `dest_ip`, `length`, `date`, `time`.  Packet lengths are
modelled as rationals (Python ints are a subset, and the statistics
functions compute exact rational values on them before any float
rounding). -/
structure Pcap where
  src_ip : String
  dest_ip : String
  length : ℚ
  date : String
  time : String
deriving DecidableEq

/-- Python truthiness of a string-or-None field: `None` and the empty
string are falsy, any non-empty string is truthy. -/
def pyTruthy : Option String → Bool
  | none => false
  | some s => s != ""

/-- `TimeRecord.__init__`: all four timestamp fields start as `None`.
Field order follows the source. -/
structure TimeRecord where
  first_sent : Option String
  first_received : Option String
  last_sent : Option String
  last_received : Option String
deriving DecidableEq

/-- A fresh `TimeRecord()`. -/
def TimeRecord.init : TimeRecord :=
  { first_sent := none, first_received := none, last_sent := none, last_received := none }

/-- `TimeRecord.update_sent`: `if not self.first_sent: self.first_sent = time`
followed by `self.last_sent = time`.  The guard is Python truthiness, so a
`first_sent` holding the empty string counts as unset. -/
def TimeRecord.update_sent (r : TimeRecord) (time : String) : TimeRecord :=
  if pyTruthy r.first_sent then { r with last_sent := some time }
  else { r with first_sent := some time, last_sent := some time }

/-- `TimeRecord.update_received`: symmetric to `update_sent` for the
received direction. -/
def TimeRecord.update_received (r : TimeRecord) (time : String) : TimeRecord :=
  if pyTruthy r.first_received then { r with last_received := some time }
  else { r with first_received := some time, last_received := some time }

/-- Day number of a civil date (proleptic Gregorian), used as the model of
the calendar arithmetic inside Python `datetime`.  Standard
days-from-civil computation; the epoch constant makes 1970-01-01 day 0. -/
def daysOfDate (y m d : Nat) : Int :=
  let yy : Int := if m ≤ 2 then (y : Int) - 1 else (y : Int)
  let era : Int := (if 0 ≤ yy then yy else yy - 399) / 400
  let yoe : Int := yy - era * 400
  let mp : Int := if 2 < m then (m : Int) - 3 else (m : Int) + 9
  let doy : Int := (153 * mp + 2) / 5 + (d : Int) - 1
  let doe : Int := yoe * 365 + yoe / 4 - yoe / 100 + doy
  era * 146097 + doe - 719468

/-- Split a character list at every occurrence of a separator character
(the splitting that `str.split` style parsing of the fixed
timestamp format needs; structural recursion so that concrete inputs
evaluate definitionally). -/
def splitListOn (sep : Char) : List Char → List (List Char)
  | [] => [[]]
  | c :: rest =>
    if c = sep then [] :: splitListOn sep rest
    else
      match splitListOn sep rest with
      | [] => [[c]]
      | hd :: tl => (c :: hd) :: tl

/-- Parse a non-empty all-digit character list as a natural number. -/
def digitsToNat (l : List Char) : Option Nat :=
  if l ≠ [] ∧ l.all Char.isDigit then
    some (l.foldl (fun n c => n * 10 + (c.toNat - 48)) 0)
  else none

/-- Model of `datetime.strptime(s, '%Y-%m-%d %H:%M:%S.%f')` followed by
conversion to a single absolute instant, expressed in microseconds since
1970-01-01 00:00:00.  `none` models the `ValueError` raised on a string
not matching the format (in particular `strptime` of the empty string
fails).  The `%f` field is 1 to 6 digits, scaled to microseconds. -/
def strptime (s : String) : Option Int :=
  match splitListOn ' ' s.data with
  | [d, t] =>
    match splitListOn '-' d, splitListOn ':' t with
    | [ys, ms, ds], [hs, mins, secs] =>
      match splitListOn '.' secs with
      | [ss, fs] =>
        match digitsToNat ys, digitsToNat ms, digitsToNat ds, digitsToNat hs,
              digitsToNat mins, digitsToNat ss, digitsToNat fs with
        | some y, some mo, some da, some h, some mi, some se, some fr =>
          if 1 ≤ mo ∧ mo ≤ 12 ∧ 1 ≤ da ∧ da ≤ 31 ∧ h ≤ 23 ∧ mi ≤ 59 ∧ se ≤ 59 ∧
              fs.length ≤ 6 then
            some ((daysOfDate y mo da * 86400 + ((h * 3600 + mi * 60 + se : Nat) : Int)) * 1000000
              + ((fr * 10 ^ (6 - fs.length) : Nat) : Int))
          else none
        | _, _, _, _, _, _, _ => none
      | _ => none
    | _, _ => none
  | _ => none

/-- `TimeRecord.get_elapsed_time_sent`: parses `first_sent` and
`last_sent` with `strptime` and returns `latest - first`.  The source
has no exception handler here: calling it with `first_sent = None`
raises an uncaught `TypeError` (and an unparseable string raises
`ValueError`); both abnormal outcomes are modelled as `none`.  The
source wraps the timedelta in `str(...)`; the embedding returns the
duration value itself, in microseconds (possibly negative). -/
def TimeRecord.get_elapsed_time_sent (r : TimeRecord) : Option Int := do
  let fs ← r.first_sent
  let ls ← r.last_sent
  let first ← strptime fs
  let latest ← strptime ls
  pure (latest - first)

/-- `TimeRecord.get_elapsed_time_received`: symmetric to
`get_elapsed_time_sent` for the received direction. -/
def TimeRecord.get_elapsed_time_received (r : TimeRecord) : Option Int := do
  let fs ← r.first_received
  let ls ← r.last_received
  let first ← strptime fs
  let latest ← strptime ls
  pure (latest - first)

/-- `defaultdict(int)` incremented at one key
(`self.machines_sent_to[addr] += 1`): modelled as an association list in
dict insertion order — an existing key keeps its position and its count
is incremented, a new key is appended with count 1. -/
def bump : List (String × Nat) → String → List (String × Nat)
  | [], a => [(a, 1)]
  | (k, v) :: rest, a => if k = a then (k, v + 1) :: rest else (k, v) :: bump rest a

/-- Total of the counts of a frequency table. -/
def sumCounts (l : List (String × Nat)) : Nat :=
  (l.map Prod.snd).sum

/-- `MachineNode`: per-host aggregate record.  The two `defaultdict(int)`
frequency tables are association lists in insertion order. -/
structure MachineNode where
  machine_addr : String
  num_packets : Nat
  packet_lengths : List ℚ
  machines_sent_to : List (String × Nat)
  machines_received_from : List (String × Nat)
  time_record : TimeRecord
deriving DecidableEq

/-- `MachineNode.__init__(addr)`. -/
def MachineNode.init (addr : String) : MachineNode :=
  { machine_addr := addr, num_packets := 0, packet_lengths := [],
    machines_sent_to := [], machines_received_from := [],
    time_record := TimeRecord.init }

/-- `MachineNode.add_pcap_record(length, addr, receiving, pcap=None)`:
increments `num_packets`, appends `length` to `packet_lengths`, bumps the
frequency table for the given direction, and — only when a pcap record is
supplied (`if pcap:`, dict truthiness, modelled by `Option`) — forwards
the timestamp string `'%s %s' % (pcap['date'], pcap['time'])` to the
matching `TimeRecord` update. -/
def MachineNode.add_pcap_record (m : MachineNode) (length : ℚ) (addr : String)
    (receiving : Bool) (pcap : Option Pcap) : MachineNode :=
  if receiving then
    { m with num_packets := m.num_packets + 1,
             packet_lengths := m.packet_lengths ++ [length],
             machines_received_from := bump m.machines_received_from addr,
             time_record := match pcap with
               | some p => m.time_record.update_received (p.date ++ (" ") ++ p.time)
               | none => m.time_record }
  else
    { m with num_packets := m.num_packets + 1,
             packet_lengths := m.packet_lengths ++ [length],
             machines_sent_to := bump m.machines_sent_to addr,
             time_record := match pcap with
               | some p => m.time_record.update_sent (p.date ++ (" ") ++ p.time)
               | none => m.time_record }

/-- `MachineNode.get_mean_packet_len`: `statistics.mean(self.packet_lengths)`.
On an empty list `statistics.mean` raises `StatisticsError`, uncaught
here, modelled as `none`; otherwise the exact arithmetic mean. -/
def MachineNode.get_mean_packet_len (m : MachineNode) : Option ℚ :=
  if m.packet_lengths.isEmpty then none
  else some (m.packet_lengths.sum / (m.packet_lengths.length : ℚ))

/-- Sample variance with the n−1 denominator, computed the way
`statistics.stdev` computes its radicand: the sum of squared deviations
from the mean, divided by `n - 1`. -/
def sampleVariance (l : List ℚ) : ℚ :=
  ((l.map (fun x => (x - l.sum / (l.length : ℚ)) ^ 2)).sum) / ((l.length : ℚ) - 1)

/-- Result of `MachineNode.get_packet_len_std_dev`: either a numeric
value or the error string the bare `except:` branch returns. -/
inductive StdDevResult where
  | val (x : ℚ)
  | err (msg : String)
deriving DecidableEq

/-- `MachineNode.get_packet_len_std_dev`: `statistics.stdev` inside a
bare `try/except` that returns the string
`'Error retrieving standard deviation.'` on any failure.  With fewer
than 2 samples `statistics.stdev` raises `StatisticsError`, so the
except branch is taken; with 2 or more samples it returns the square
root of the exact sample variance.  The square root of a rational is
not a rational, so the embedding carries the exact radicand (the sample
variance, n−1 denominator); the source return value is its square
root. -/
def MachineNode.get_packet_len_std_dev (m : MachineNode) : StdDevResult :=
  if 2 ≤ m.packet_lengths.length then StdDevResult.val (sampleVariance m.packet_lengths)
  else StdDevResult.err ("Error retrieving standard deviation.")

/-- First-match lookup in the `addr -> MachineNode` association list
modelling the `FlowRecord.machines` dict. -/
def lookupAddr : List (String × MachineNode) → String → Option MachineNode
  | [], _ => none
  | (k, v) :: rest, a => if k = a then some v else lookupAddr rest a

/-- In-place update of the entry at a key, keeping its position
(`self.machines[addr].add_pcap_record(...)` mutates the stored node). -/
def setEntry : List (String × MachineNode) → String → MachineNode → List (String × MachineNode)
  | [], _, _ => []
  | (k, v) :: rest, a, n => if k = a then (k, n) :: rest else (k, v) :: setEntry rest a n

/-- `FlowRecord`: the dict of `addr -> MachineNode`, as an association
list in insertion order. -/
structure FlowRecord where
  machines : List (String × MachineNode)
deriving DecidableEq

/-- One branch body of `FlowRecord.update`: if the address is not yet
registered, create a fresh `MachineNode`, apply `add_pcap_record`, and
insert it; otherwise apply `add_pcap_record` to the stored node in
place.  The source spells this match out twice, once for the source
address and once for the destination address, with identical code. -/
def recordInto (l : List (String × MachineNode)) (a : String) (length : ℚ)
    (peer : String) (receiving : Bool) (pcap : Option Pcap) : List (String × MachineNode) :=
  match lookupAddr l a with
  | none => l ++ [(a, (MachineNode.init a).add_pcap_record length peer receiving pcap)]
  | some node => setEntry l a (node.add_pcap_record length peer receiving pcap)

/-- `FlowRecord.update(src_addr, s_in_net, dest_addr, d_in_net, length, pcap)`:
if the source is in the network, record a sent packet (receiving=False)
to `dest_addr` on the source node; then, if the destination is in the
network, record a received packet (receiving=True) from `src_addr` on
the destination node. -/
def FlowRecord.update (flow : FlowRecord) (src_addr : String) (s_in_net : Bool)
    (dest_addr : String) (d_in_net : Bool) (length : ℚ) (pcap : Option Pcap) : FlowRecord :=
  let m1 := if s_in_net then recordInto flow.machines src_addr length dest_addr false pcap
            else flow.machines
  ⟨if d_in_net then recordInto m1 dest_addr length src_addr true pcap else m1⟩

/-- `FlowRecord.get_machine_node(addr)`: the stored node, or `None` if
the address is not registered.  Pure read, no creation side effect. -/
def FlowRecord.get_machine_node (flow : FlowRecord) (addr : String) : Option MachineNode :=
  lookupAddr flow.machines addr

/-- `analyze_pcap` (the dispatcher), after `ast.literal_eval` decoding:
classifies both endpoints against the `network_machines` membership list
and calls `flow.update` with literal boolean flags in a four-way
if/elif chain; when neither endpoint is in the network the event is
dropped.  The decoded pcap dict is passed through to `update`. -/
def analyze_pcap (network_machines : List String) (p : Pcap) (flow : FlowRecord) : FlowRecord :=
  if p.src_ip ∈ network_machines ∧ p.dest_ip ∈ network_machines then
    flow.update p.src_ip true p.dest_ip true p.length (some p)
  else if p.src_ip ∈ network_machines then
    flow.update p.src_ip true p.dest_ip false p.length (some p)
  else if p.dest_ip ∈ network_machines then
    flow.update p.src_ip false p.dest_ip true p.length (some p)
  else
    flow

/-- Arguments of one `add_pcap_record` call, for stating properties of
arbitrary call sequences against one node. -/
structure RecordArgs where
  length : ℚ
  addr : String
  receiving : Bool
  pcap : Option Pcap
deriving DecidableEq

/-- Apply a sequence of `add_pcap_record` calls to a node. -/
def applyRecords (m : MachineNode) (calls : List RecordArgs) : MachineNode :=
  calls.foldl (fun n c => n.add_pcap_record c.length c.addr c.receiving c.pcap) m

/-- One `TimeRecord` update call, in either direction. -/
inductive TRCall where
  | sent (t : String)
  | received (t : String)
deriving DecidableEq

/-- Apply one `TimeRecord` update call. -/
def TimeRecord.applyCall (r : TimeRecord) : TRCall → TimeRecord
  | TRCall.sent t => r.update_sent t
  | TRCall.received t => r.update_received t

/-- Apply a sequence of `TimeRecord` update calls. -/
def TimeRecord.applyCalls (r : TimeRecord) (cs : List TRCall) : TimeRecord :=
  cs.foldl TimeRecord.applyCall r

/-- The timestamps passed to `update_sent` in a call sequence, in order. -/
def sentTimes : List TRCall → List String
  | [] => []
  | TRCall.sent t :: rest => t :: sentTimes rest
  | TRCall.received _ :: rest => sentTimes rest

/-- The timestamps passed to `update_received` in a call sequence, in order. -/
def receivedTimes : List TRCall → List String
  | [] => []
  | TRCall.sent _ :: rest => receivedTimes rest
  | TRCall.received t :: rest => t :: receivedTimes rest

/-! ### Association-list lemmas for the registry -/

theorem lookupAddr_setEntry_some (l : List (String × MachineNode)) (a : String)
    (n v : MachineNode) (h : lookupAddr l a = some v) :
    lookupAddr (setEntry l a n) a = some n := by
  induction l with
  | nil => simp [lookupAddr] at h
  | cons kv rest ih =>
    obtain ⟨k, w⟩ := kv
    by_cases hk : k = a
    · simp [lookupAddr, setEntry, hk]
    · simp only [lookupAddr, setEntry, if_neg hk] at h ⊢
      exact ih h

theorem lookupAddr_setEntry_ne (l : List (String × MachineNode)) (a : String)
    (n : MachineNode) (a' : String) (h : a' ≠ a) :
    lookupAddr (setEntry l a n) a' = lookupAddr l a' := by
  induction l with
  | nil => rfl
  | cons kv rest ih =>
    obtain ⟨k, w⟩ := kv
    by_cases hk : k = a
    · subst hk
      have hne : ¬ k = a' := fun he => h he.symm
      simp [lookupAddr, setEntry, hne]
    · simp only [lookupAddr, setEntry, if_neg hk]
      by_cases hk' : k = a'
      · simp [lookupAddr, hk']
      · simp [lookupAddr, hk', ih]

theorem lookupAddr_append_self (l : List (String × MachineNode)) (a : String)
    (n : MachineNode) (h : lookupAddr l a = none) :
    lookupAddr (l ++ [(a, n)]) a = some n := by
  induction l with
  | nil => simp [lookupAddr]
  | cons kv rest ih =>
    obtain ⟨k, w⟩ := kv
    by_cases hk : k = a
    · simp [lookupAddr, hk] at h
    · simp only [List.cons_append, lookupAddr, if_neg hk] at h ⊢
      exact ih h

theorem lookupAddr_append_ne (l : List (String × MachineNode)) (a : String)
    (n : MachineNode) (a' : String) (h : a' ≠ a) :
    lookupAddr (l ++ [(a, n)]) a' = lookupAddr l a' := by
  induction l with
  | nil =>
    have hne : ¬ a = a' := fun he => h he.symm
    simp [lookupAddr, hne]
  | cons kv rest ih =>
    obtain ⟨k, w⟩ := kv
    by_cases hk : k = a'
    · simp [lookupAddr, hk]
    · simp only [List.cons_append, lookupAddr, if_neg hk]
      exact ih

theorem lookupAddr_eq_none_iff (l : List (String × MachineNode)) (a : String) :
    lookupAddr l a = none ↔ a ∉ l.map Prod.fst := by
  induction l with
  | nil => simp [lookupAddr]
  | cons kv rest ih =>
    obtain ⟨k, w⟩ := kv
    by_cases hk : k = a
    · simp [lookupAddr, hk]
    · have ha : ¬ a = k := fun he => hk he.symm
      simp [lookupAddr, hk, ih, ha]

theorem lookupAddr_recordInto_self (l : List (String × MachineNode)) (a : String)
    (length : ℚ) (peer : String) (receiving : Bool) (pcap : Option Pcap) :
    lookupAddr (recordInto l a length peer receiving pcap) a
      = some (((lookupAddr l a).getD (MachineNode.init a)).add_pcap_record
          length peer receiving pcap) := by
  unfold recordInto
  cases h : lookupAddr l a with
  | none => simpa using lookupAddr_append_self l a _ h
  | some node => simpa using lookupAddr_setEntry_some l a _ node h

theorem lookupAddr_recordInto_ne (l : List (String × MachineNode)) (a : String)
    (length : ℚ) (peer : String) (receiving : Bool) (pcap : Option Pcap)
    (a' : String) (h : a' ≠ a) :
    lookupAddr (recordInto l a length peer receiving pcap) a' = lookupAddr l a' := by
  unfold recordInto
  cases hl : lookupAddr l a with
  | none => exact lookupAddr_append_ne l a _ a' h
  | some node => exact lookupAddr_setEntry_ne l a _ a' h

/-- `update` with both flags false returns the registry unchanged. -/
theorem update_neither_flag (flow : FlowRecord) (src_addr dest_addr : String)
    (length : ℚ) (pcap : Option Pcap) :
    flow.update src_addr false dest_addr false length pcap = flow := rfl

/-! ### C1: routing truth table of FlowRecord.update -/

/-- C1: `FlowRecord.update(src_addr, src_in_net, dest_addr, dest_in_net,
length, timestamp)` routes one packet event by the four-way truth table
over the two membership flags: with both flags, the source node records
a sent to `dest_addr` and the destination node records a received from
`src_addr`; with only the source flag, only the source node records a
sent; with only the destination flag, only the destination node records
a received; with neither flag the registry is unchanged.  In every
in-network case the node is the existing one when the address is
registered and a freshly created one otherwise (the `getD
(MachineNode.init _)` in the statement), and all other addresses are
untouched. -/
theorem flowRecord_update_routing (flow : FlowRecord) (src_addr dest_addr : String)
    (s_in_net d_in_net : Bool) (length : ℚ) (pcap : Option Pcap) :
    (s_in_net = false → d_in_net = false →
       flow.update src_addr s_in_net dest_addr d_in_net length pcap = flow) ∧
    (s_in_net = true → d_in_net = false →
       (flow.update src_addr s_in_net dest_addr d_in_net length pcap).get_machine_node src_addr
         = some (((flow.get_machine_node src_addr).getD
             (MachineNode.init src_addr)).add_pcap_record length dest_addr false pcap) ∧
       ∀ a, a ≠ src_addr →
         (flow.update src_addr s_in_net dest_addr d_in_net length pcap).get_machine_node a
           = flow.get_machine_node a) ∧
    (s_in_net = false → d_in_net = true →
       (flow.update src_addr s_in_net dest_addr d_in_net length pcap).get_machine_node dest_addr
         = some (((flow.get_machine_node dest_addr).getD
             (MachineNode.init dest_addr)).add_pcap_record length src_addr true pcap) ∧
       ∀ a, a ≠ dest_addr →
         (flow.update src_addr s_in_net dest_addr d_in_net length pcap).get_machine_node a
           = flow.get_machine_node a) ∧
    (s_in_net = true → d_in_net = true → src_addr ≠ dest_addr →
       (flow.update src_addr s_in_net dest_addr d_in_net length pcap).get_machine_node src_addr
         = some (((flow.get_machine_node src_addr).getD
             (MachineNode.init src_addr)).add_pcap_record length dest_addr false pcap) ∧
       (flow.update src_addr s_in_net dest_addr d_in_net length pcap).get_machine_node dest_addr
         = some (((flow.get_machine_node dest_addr).getD
             (MachineNode.init dest_addr)).add_pcap_record length src_addr true pcap) ∧
       ∀ a, a ≠ src_addr → a ≠ dest_addr →
         (flow.update src_addr s_in_net dest_addr d_in_net length pcap).get_machine_node a
           = flow.get_machine_node a) := by
  refine ⟨?_, ?_, ?_, ?_⟩
  · rintro rfl rfl
    rfl
  · rintro rfl rfl
    constructor
    · simp [FlowRecord.update, FlowRecord.get_machine_node, lookupAddr_recordInto_self]
    · intro a ha
      simp [FlowRecord.update, FlowRecord.get_machine_node,
        lookupAddr_recordInto_ne _ _ _ _ _ _ _ ha]
  · rintro rfl rfl
    constructor
    · simp [FlowRecord.update, FlowRecord.get_machine_node, lookupAddr_recordInto_self]
    · intro a ha
      simp [FlowRecord.update, FlowRecord.get_machine_node,
        lookupAddr_recordInto_ne _ _ _ _ _ _ _ ha]
  · rintro rfl rfl hne
    refine ⟨?_, ?_, ?_⟩
    · simp [FlowRecord.update, FlowRecord.get_machine_node,
        lookupAddr_recordInto_ne _ _ _ _ _ _ _ hne, lookupAddr_recordInto_self]
    · simp [FlowRecord.update, FlowRecord.get_machine_node,
        lookupAddr_recordInto_self, lookupAddr_recordInto_ne _ _ _ _ _ _ _ (Ne.symm hne)]
    · intro a ha hd
      simp [FlowRecord.update, FlowRecord.get_machine_node,
        lookupAddr_recordInto_ne _ _ _ _ _ _ _ ha,
        lookupAddr_recordInto_ne _ _ _ _ _ _ _ hd]

/-- C1 witness: on the empty registry, an update with both endpoints
in-network registers the source node with a sent record to the
destination. -/
theorem flowRecord_update_routing_witness :
    (FlowRecord.update ⟨[]⟩ ("A") true ("B") true 5 none).get_machine_node ("A")
      = some (((FlowRecord.get_machine_node ⟨[]⟩ ("A")).getD
          (MachineNode.init ("A"))).add_pcap_record 5 ("B") false none) :=
  ((flowRecord_update_routing ⟨[]⟩ ("A") ("B") true true 5 none).2.2.2
    rfl rfl (by decide)).1

/-! ### C9: neither-in-network update is a no-op; get has no side effect -/

/-- C9: an `update` call with both membership flags false leaves the
registry exactly as it was (no node created, nothing mutated), and
`get_machine_node` returns `none` exactly for unregistered addresses —
it is a pure read with no creation side effect. -/
theorem flowRecord_update_neither_noop (flow : FlowRecord) (src_addr dest_addr : String)
    (length : ℚ) (pcap : Option Pcap) (addr : String) :
    flow.update src_addr false dest_addr false length pcap = flow ∧
    (flow.get_machine_node addr = none ↔ addr ∉ flow.machines.map Prod.fst) :=
  ⟨update_neither_flag flow src_addr dest_addr length pcap,
   lookupAddr_eq_none_iff flow.machines addr⟩

/-- C9 witness: concrete no-op update on a one-entry registry, and a
not-found read for an unregistered address. -/
theorem flowRecord_update_neither_noop_witness :
    FlowRecord.update ⟨[(("A"), MachineNode.init ("A"))]⟩ ("B") false ("C") false 7 none
      = ⟨[(("A"), MachineNode.init ("A"))]⟩ ∧
    (FlowRecord.get_machine_node ⟨[(("A"), MachineNode.init ("A"))]⟩ ("Z") = none ↔
      ("Z") ∉ ([(("A"), MachineNode.init ("A"))] : List (String × MachineNode)).map Prod.fst) :=
  flowRecord_update_neither_noop ⟨[(("A"), MachineNode.init ("A"))]⟩ ("B") ("C") 7 none ("Z")

/-! ### C3: the dispatcher branch is membership pass-through -/

/-- C3: `analyze_pcap` with its four-way if/elif chain produces exactly
the registry `FlowRecord.update` produces when handed the two
membership booleans directly; in particular the dropped
neither-in-network event equals an `update` call with both flags
false. -/
theorem analyze_pcap_refines_update (network_machines : List String) (p : Pcap)
    (flow : FlowRecord) :
    analyze_pcap network_machines p flow
      = flow.update p.src_ip (decide (p.src_ip ∈ network_machines))
          p.dest_ip (decide (p.dest_ip ∈ network_machines)) p.length (some p) := by
  by_cases h1 : p.src_ip ∈ network_machines <;>
    by_cases h2 : p.dest_ip ∈ network_machines <;>
      simp [analyze_pcap, h1, h2, update_neither_flag]

/-! ### C2: the packet-count invariant of MachineNode -/

theorem sumCounts_bump (l : List (String × Nat)) (a : String) :
    sumCounts (bump l a) = sumCounts l + 1 := by
  induction l with
  | nil => simp [bump, sumCounts]
  | cons kv rest ih =>
    obtain ⟨k, v⟩ := kv
    by_cases hk : k = a
    · simp [bump, hk, sumCounts]
      omega
    · simp [bump, hk, sumCounts] at ih ⊢
      omega

theorem add_pcap_record_inv (m : MachineNode) (length : ℚ) (addr : String)
    (receiving : Bool) (pcap : Option Pcap)
    (h1 : m.num_packets = m.packet_lengths.length)
    (h2 : m.num_packets
        = sumCounts m.machines_sent_to + sumCounts m.machines_received_from) :
    (m.add_pcap_record length addr receiving pcap).num_packets
        = (m.add_pcap_record length addr receiving pcap).packet_lengths.length ∧
    (m.add_pcap_record length addr receiving pcap).num_packets
        = sumCounts (m.add_pcap_record length addr receiving pcap).machines_sent_to
          + sumCounts (m.add_pcap_record length addr receiving pcap).machines_received_from := by
  cases receiving <;>
    simp [MachineNode.add_pcap_record, sumCounts_bump, h1, h2] <;> omega

theorem applyRecords_inv (calls : List RecordArgs) (m : MachineNode)
    (h1 : m.num_packets = m.packet_lengths.length)
    (h2 : m.num_packets
        = sumCounts m.machines_sent_to + sumCounts m.machines_received_from) :
    (applyRecords m calls).num_packets = (applyRecords m calls).packet_lengths.length ∧
    (applyRecords m calls).num_packets
        = sumCounts (applyRecords m calls).machines_sent_to
          + sumCounts (applyRecords m calls).machines_received_from := by
  induction calls generalizing m with
  | nil => exact ⟨h1, h2⟩
  | cons c rest ih =>
    have h := add_pcap_record_inv m c.length c.addr c.receiving c.pcap h1 h2
    simpa [applyRecords] using ih _ h.1 h.2

/-- C2: every node reachable from a fresh `MachineNode` by a sequence of
`add_pcap_record` calls satisfies `num_packets = packet_lengths.length =
Σ sent counts + Σ received counts`. -/
theorem machineNode_count_invariant (addr : String) (calls : List RecordArgs) :
    (applyRecords (MachineNode.init addr) calls).num_packets
        = (applyRecords (MachineNode.init addr) calls).packet_lengths.length ∧
    (applyRecords (MachineNode.init addr) calls).num_packets
        = sumCounts (applyRecords (MachineNode.init addr) calls).machines_sent_to
          + sumCounts (applyRecords (MachineNode.init addr) calls).machines_received_from :=
  applyRecords_inv calls (MachineNode.init addr) rfl rfl

/-! ### C10: add_pcap_record without a pcap record leaves the TimeRecord alone -/

/-- C10: `add_pcap_record` with `pcap = None` still increments
`num_packets`, appends to `packet_lengths` and bumps the matching
per-peer frequency table, but leaves the `time_record` field (and the
other direction's table) exactly unchanged; the timestamp is forwarded
to the `TimeRecord` update only when a pcap record is supplied. -/
theorem add_pcap_record_none_frame (m : MachineNode) (length : ℚ) (addr : String)
    (receiving : Bool) (p : Pcap) :
    (m.add_pcap_record length addr receiving none =
      { m with num_packets := m.num_packets + 1,
               packet_lengths := m.packet_lengths ++ [length],
               machines_sent_to := if receiving then m.machines_sent_to
                                   else bump m.machines_sent_to addr,
               machines_received_from := if receiving then bump m.machines_received_from addr
                                         else m.machines_received_from }) ∧
    ((m.add_pcap_record length addr receiving (some p)).time_record =
      if receiving then m.time_record.update_received (p.date ++ (" ") ++ p.time)
      else m.time_record.update_sent (p.date ++ (" ") ++ p.time)) := by
  cases receiving <;> exact ⟨rfl, rfl⟩

/-! ### C7: mean packet length -/

/-- C7: `get_mean_packet_len` fails on an empty sample list (uncaught
`StatisticsError`, modelled as `none`) and otherwise returns the exact
arithmetic mean of `packet_lengths`: the returned value times the
number of samples is the sum of the samples. -/
theorem get_mean_packet_len_spec (m : MachineNode) :
    (m.packet_lengths = [] → m.get_mean_packet_len = none) ∧
    (m.packet_lengths ≠ [] →
       m.get_mean_packet_len
         = some (m.packet_lengths.sum / (m.packet_lengths.length : ℚ)) ∧
       m.packet_lengths.sum / (m.packet_lengths.length : ℚ) * (m.packet_lengths.length : ℚ)
         = m.packet_lengths.sum) := by
  constructor
  · intro h
    simp [MachineNode.get_mean_packet_len, h]
  · intro h
    have hlen : m.packet_lengths.length ≠ 0 := by
      simpa [List.length_eq_zero] using h
    have hq : (m.packet_lengths.length : ℚ) ≠ 0 := by exact_mod_cast hlen
    refine ⟨?_, div_mul_cancel₀ _ hq⟩
    simp [MachineNode.get_mean_packet_len, List.isEmpty_iff, h]

/-- C7 witness: the mean of samples 100, 200, 50 is 350/3. -/
theorem get_mean_packet_len_spec_witness :
    ({ machine_addr := ("m"), num_packets := 3, packet_lengths := [100, 200, 50],
       machines_sent_to := [], machines_received_from := [],
       time_record := TimeRecord.init } : MachineNode).get_mean_packet_len
      = some (350 / 3) :=
  (((get_mean_packet_len_spec
      { machine_addr := ("m"), num_packets := 3, packet_lengths := [100, 200, 50],
        machines_sent_to := [], machines_received_from := [],
        time_record := TimeRecord.init }).2 (by simp)).1).trans (by norm_num)

/-! ### C4: standard deviation of packet length -/

theorem sum_sq_sub_const (l : List ℚ) (c : ℚ) :
    (l.map (fun x => (x - c) ^ 2)).sum
      = (l.map (fun x => x ^ 2)).sum - 2 * c * l.sum + (l.length : ℚ) * c ^ 2 := by
  induction l with
  | nil => simp
  | cons a t ih =>
    simp only [List.map_cons, List.sum_cons, List.length_cons, ih]
    push_cast
    ring

/-- C4: with at least two samples `get_packet_len_std_dev` returns the
value branch carrying the exact sample variance (n−1 denominator; the
source returns its square root as a float), and that variance satisfies
the raw-moment identity `v * ((n-1) * n) = n * Σ x² - (Σ x)²`; with
fewer than two samples it returns the explicit error-string result of
the except branch — a returned value, not a crash. -/
theorem get_packet_len_std_dev_spec (m : MachineNode) :
    (2 ≤ m.packet_lengths.length →
       m.get_packet_len_std_dev = StdDevResult.val (sampleVariance m.packet_lengths) ∧
       sampleVariance m.packet_lengths
           * (((m.packet_lengths.length : ℚ) - 1) * (m.packet_lengths.length : ℚ))
         = (m.packet_lengths.length : ℚ) * ((m.packet_lengths.map (fun x => x ^ 2)).sum)
           - m.packet_lengths.sum ^ 2) ∧
    (m.packet_lengths.length < 2 →
       m.get_packet_len_std_dev
         = StdDevResult.err ("Error retrieving standard deviation.")) := by
  constructor
  · intro h
    refine ⟨by simp [MachineNode.get_packet_len_std_dev, h], ?_⟩
    have hn0 : m.packet_lengths.length ≠ 0 := by omega
    have hn : (m.packet_lengths.length : ℚ) ≠ 0 := by exact_mod_cast hn0
    have hn1' : m.packet_lengths.length ≠ 1 := by omega
    have hn1 : (m.packet_lengths.length : ℚ) - 1 ≠ 0 := by
      have : (m.packet_lengths.length : ℚ) ≠ 1 := by exact_mod_cast hn1'
      exact sub_ne_zero.mpr this
    unfold sampleVariance
    rw [sum_sq_sub_const]
    field_simp
    ring
  · intro h
    have h2 : ¬ 2 ≤ m.packet_lengths.length := by omega
    simp [MachineNode.get_packet_len_std_dev, h2]

/-- C4 witness: for samples 1, 2, 3 the value branch is reached and the
sample variance is 1. -/
theorem get_packet_len_std_dev_spec_witness :
    ({ machine_addr := ("m"), num_packets := 3, packet_lengths := [1, 2, 3],
       machines_sent_to := [], machines_received_from := [],
       time_record := TimeRecord.init } : MachineNode).get_packet_len_std_dev
      = StdDevResult.val 1 :=
  (((get_packet_len_std_dev_spec
      { machine_addr := ("m"), num_packets := 3, packet_lengths := [1, 2, 3],
        machines_sent_to := [], machines_received_from := [],
        time_record := TimeRecord.init }).1 (by simp)).1).trans
    (by norm_num [sampleVariance])

/-! ### C8: the three-event scenario -/

/-- The registry obtained from the empty registry with membership
`[A, B]` after dispatching `(A → B, len 100)`, `(A → B, len 200)`,
`(C → A, len 50)`. -/
def scenarioFlow : FlowRecord :=
  analyze_pcap [("A"), ("B")] ⟨"C", "A", 50, "2016-06-22", "10:00:02.0"⟩
    (analyze_pcap [("A"), ("B")] ⟨"A", "B", 200, "2016-06-22", "10:00:01.0"⟩
      (analyze_pcap [("A"), ("B")] ⟨"A", "B", 100, "2016-06-22", "10:00:00.0"⟩ ⟨[]⟩))

/-- C8: in the scenario, node A holds 3 packets with mean length 350/3 —
which is 116.67 at two decimals (within 1/200 of 11667/100) — node B
holds 2 packets, and no node exists for the out-of-network address C. -/
theorem scenario_three_events :
    (scenarioFlow.get_machine_node ("A")).map MachineNode.num_packets = some 3 ∧
    (scenarioFlow.get_machine_node ("A")).map MachineNode.get_mean_packet_len
      = some (some (350 / 3)) ∧
    (350 / 3 - 11667 / 100 : ℚ) ≤ 1 / 200 ∧ -(1 / 200) ≤ (350 / 3 - 11667 / 100 : ℚ) ∧
    (scenarioFlow.get_machine_node ("B")).map MachineNode.num_packets = some 2 ∧
    scenarioFlow.get_machine_node ("C") = none := by
  have h2 : (scenarioFlow.get_machine_node ("A")).map MachineNode.get_mean_packet_len
      = some (some (([100, 200, 50] : List ℚ).sum / (([100, 200, 50] : List ℚ).length : ℚ))) :=
    rfl
  refine ⟨rfl, ?_, by norm_num, by norm_num, rfl, rfl⟩
  rw [h2]
  norm_num

/-! ### TimeRecord trace lemmas -/

theorem applyCalls_cons (r : TimeRecord) (c : TRCall) (cs : List TRCall) :
    TimeRecord.applyCalls r (c :: cs) = TimeRecord.applyCalls (r.applyCall c) cs := rfl

theorem update_received_sent_frame (r : TimeRecord) (t : String) :
    (r.update_received t).first_sent = r.first_sent ∧
    (r.update_received t).last_sent = r.last_sent := by
  unfold TimeRecord.update_received
  by_cases h : pyTruthy r.first_received <;> simp [h]

theorem update_sent_received_frame (r : TimeRecord) (t : String) :
    (r.update_sent t).first_received = r.first_received ∧
    (r.update_sent t).last_received = r.last_received := by
  unfold TimeRecord.update_sent
  by_cases h : pyTruthy r.first_sent <;> simp [h]

theorem update_sent_last (r : TimeRecord) (t : String) :
    (r.update_sent t).last_sent = some t := by
  unfold TimeRecord.update_sent
  by_cases h : pyTruthy r.first_sent <;> simp [h]

theorem update_received_last (r : TimeRecord) (t : String) :
    (r.update_received t).last_received = some t := by
  unfold TimeRecord.update_received
  by_cases h : pyTruthy r.first_received <;> simp [h]

theorem applyCalls_first_sent_truthy (cs : List TRCall) (r : TimeRecord)
    (h : pyTruthy r.first_sent = true) :
    (TimeRecord.applyCalls r cs).first_sent = r.first_sent := by
  induction cs generalizing r with
  | nil => rfl
  | cons c rest ih =>
    rw [applyCalls_cons]
    cases c with
    | sent t =>
      show (TimeRecord.applyCalls (r.update_sent t) rest).first_sent = r.first_sent
      have hfs : (r.update_sent t).first_sent = r.first_sent := by
        simp [TimeRecord.update_sent, h]
      rw [ih _ (by rw [hfs]; exact h), hfs]
    | received t =>
      show (TimeRecord.applyCalls (r.update_received t) rest).first_sent = r.first_sent
      have hfs := (update_received_sent_frame r t).1
      rw [ih _ (by rw [hfs]; exact h), hfs]

theorem applyCalls_first_received_truthy (cs : List TRCall) (r : TimeRecord)
    (h : pyTruthy r.first_received = true) :
    (TimeRecord.applyCalls r cs).first_received = r.first_received := by
  induction cs generalizing r with
  | nil => rfl
  | cons c rest ih =>
    rw [applyCalls_cons]
    cases c with
    | sent t =>
      show (TimeRecord.applyCalls (r.update_sent t) rest).first_received = r.first_received
      have hfs := (update_sent_received_frame r t).1
      rw [ih _ (by rw [hfs]; exact h), hfs]
    | received t =>
      show (TimeRecord.applyCalls (r.update_received t) rest).first_received = r.first_received
      have hfs : (r.update_received t).first_received = r.first_received := by
        simp [TimeRecord.update_received, h]
      rw [ih _ (by rw [hfs]; exact h), hfs]

theorem applyCalls_first_sent_nil (cs : List TRCall) (r : TimeRecord)
    (h : sentTimes cs = []) :
    (TimeRecord.applyCalls r cs).first_sent = r.first_sent ∧
    (TimeRecord.applyCalls r cs).last_sent = r.last_sent := by
  induction cs generalizing r with
  | nil => exact ⟨rfl, rfl⟩
  | cons c rest ih =>
    rw [applyCalls_cons]
    cases c with
    | sent t => simp [sentTimes] at h
    | received t =>
      show (TimeRecord.applyCalls (r.update_received t) rest).first_sent = r.first_sent ∧
        (TimeRecord.applyCalls (r.update_received t) rest).last_sent = r.last_sent
      have h' : sentTimes rest = [] := by simpa [sentTimes] using h
      refine ⟨?_, ?_⟩
      · rw [(ih _ h').1, (update_received_sent_frame r t).1]
      · rw [(ih _ h').2, (update_received_sent_frame r t).2]

theorem applyCalls_first_received_nil (cs : List TRCall) (r : TimeRecord)
    (h : receivedTimes cs = []) :
    (TimeRecord.applyCalls r cs).first_received = r.first_received ∧
    (TimeRecord.applyCalls r cs).last_received = r.last_received := by
  induction cs generalizing r with
  | nil => exact ⟨rfl, rfl⟩
  | cons c rest ih =>
    rw [applyCalls_cons]
    cases c with
    | received t => simp [receivedTimes] at h
    | sent t =>
      show (TimeRecord.applyCalls (r.update_sent t) rest).first_received = r.first_received ∧
        (TimeRecord.applyCalls (r.update_sent t) rest).last_received = r.last_received
      have h' : receivedTimes rest = [] := by simpa [receivedTimes] using h
      refine ⟨?_, ?_⟩
      · rw [(ih _ h').1, (update_sent_received_frame r t).1]
      · rw [(ih _ h').2, (update_sent_received_frame r t).2]

theorem applyCalls_last_sent_getLast (cs : List TRCall) (r : TimeRecord) (t : String)
    (h : (sentTimes cs).getLast? = some t) :
    (TimeRecord.applyCalls r cs).last_sent = some t := by
  induction cs generalizing r with
  | nil => simp [sentTimes] at h
  | cons c rest ih =>
    rw [applyCalls_cons]
    cases c with
    | sent u =>
      show (TimeRecord.applyCalls (r.update_sent u) rest).last_sent = some t
      simp only [sentTimes] at h
      cases hrest : sentTimes rest with
      | nil =>
        rw [hrest] at h
        simp only [List.getLast?_singleton, Option.some.injEq] at h
        subst h
        rw [(applyCalls_first_sent_nil rest _ hrest).2]
        exact update_sent_last r u
      | cons v vs =>
        rw [hrest] at h
        rw [List.getLast?_cons_cons] at h
        exact ih _ (by rw [hrest]; exact h)
    | received u =>
      show (TimeRecord.applyCalls (r.update_received u) rest).last_sent = some t
      simp only [sentTimes] at h
      exact ih _ h

theorem applyCalls_last_received_getLast (cs : List TRCall) (r : TimeRecord) (t : String)
    (h : (receivedTimes cs).getLast? = some t) :
    (TimeRecord.applyCalls r cs).last_received = some t := by
  induction cs generalizing r with
  | nil => simp [receivedTimes] at h
  | cons c rest ih =>
    rw [applyCalls_cons]
    cases c with
    | received u =>
      show (TimeRecord.applyCalls (r.update_received u) rest).last_received = some t
      simp only [receivedTimes] at h
      cases hrest : receivedTimes rest with
      | nil =>
        rw [hrest] at h
        simp only [List.getLast?_singleton, Option.some.injEq] at h
        subst h
        rw [(applyCalls_first_received_nil rest _ hrest).2]
        exact update_received_last r u
      | cons v vs =>
        rw [hrest] at h
        rw [List.getLast?_cons_cons] at h
        exact ih _ (by rw [hrest]; exact h)
    | sent u =>
      show (TimeRecord.applyCalls (r.update_sent u) rest).last_received = some t
      simp only [receivedTimes] at h
      exact ih _ h

theorem applyCalls_first_sent_head (cs : List TRCall) (r : TimeRecord) (t : String)
    (hne : ∀ u ∈ sentTimes cs, u ≠ "")
    (hf : pyTruthy r.first_sent = false) (h : (sentTimes cs).head? = some t) :
    (TimeRecord.applyCalls r cs).first_sent = some t := by
  induction cs generalizing r with
  | nil => simp [sentTimes] at h
  | cons c rest ih =>
    rw [applyCalls_cons]
    cases c with
    | sent u =>
      simp only [sentTimes] at h hne
      have hu : u = t := by simpa using h
      subst hu
      show (TimeRecord.applyCalls (r.update_sent u) rest).first_sent = some u
      have h1 : (r.update_sent u).first_sent = some u := by
        simp [TimeRecord.update_sent, hf]
      have h2 : pyTruthy (r.update_sent u).first_sent = true := by
        rw [h1]
        simpa [pyTruthy, bne_iff_ne] using hne u (List.mem_cons_self u _)
      rw [applyCalls_first_sent_truthy rest _ h2, h1]
    | received u =>
      simp only [sentTimes] at h hne
      show (TimeRecord.applyCalls (r.update_received u) rest).first_sent = some t
      exact ih _ hne (by rw [(update_received_sent_frame r u).1]; exact hf) h

theorem applyCalls_first_received_head (cs : List TRCall) (r : TimeRecord) (t : String)
    (hne : ∀ u ∈ receivedTimes cs, u ≠ "")
    (hf : pyTruthy r.first_received = false) (h : (receivedTimes cs).head? = some t) :
    (TimeRecord.applyCalls r cs).first_received = some t := by
  induction cs generalizing r with
  | nil => simp [receivedTimes] at h
  | cons c rest ih =>
    rw [applyCalls_cons]
    cases c with
    | received u =>
      simp only [receivedTimes] at h hne
      have hu : u = t := by simpa using h
      subst hu
      show (TimeRecord.applyCalls (r.update_received u) rest).first_received = some u
      have h1 : (r.update_received u).first_received = some u := by
        simp [TimeRecord.update_received, hf]
      have h2 : pyTruthy (r.update_received u).first_received = true := by
        rw [h1]
        simpa [pyTruthy, bne_iff_ne] using hne u (List.mem_cons_self u _)
      rw [applyCalls_first_received_truthy rest _ h2, h1]
    | sent u =>
      simp only [receivedTimes] at h hne
      show (TimeRecord.applyCalls (r.update_sent u) rest).first_received = some t
      exact ih _ hne (by rw [(update_sent_received_frame r u).1]; exact hf) h

theorem strptime_isSome_ne_empty (t : String) (h : (strptime t).isSome = true) : t ≠ "" := by
  intro he
  subst he
  simp [show strptime ("") = none from rfl] at h

theorem head?_mem_list {α : Type} {l : List α} {a : α} (h : l.head? = some a) : a ∈ l := by
  cases l with
  | nil => simp at h
  | cons x xs =>
    simp only [List.head?_cons, Option.some.injEq] at h
    subst h
    exact List.mem_cons_self _ _

theorem getLast?_mem_list {α : Type} {l : List α} {a : α} (h : l.getLast? = some a) : a ∈ l := by
  induction l with
  | nil => simp at h
  | cons x xs ih =>
    cases xs with
    | nil =>
      simp only [List.getLast?_singleton, Option.some.injEq] at h
      subst h
      exact List.mem_cons_self _ _
    | cons y ys =>
      rw [List.getLast?_cons_cons] at h
      exact List.mem_cons_of_mem _ (ih h)

/-! ### C5: elapsed durations -/

/-- C5: over any call trace on a fresh `TimeRecord` whose supplied
timestamps all parse, `get_elapsed_time_sent` fails (the source raises,
modelled as `none`) when `update_sent` was never called, and otherwise
returns the duration `last_sent - first_sent`, i.e. parse of the last
sent timestamp minus parse of the first sent timestamp — a value that
is negative when the updates arrived out of chronological order;
symmetrically for `get_elapsed_time_received` and `update_received`. -/
theorem get_elapsed_time_spec (cs : List TRCall)
    (hs : ∀ t ∈ sentTimes cs, (strptime t).isSome = true)
    (hr : ∀ t ∈ receivedTimes cs, (strptime t).isSome = true) :
    (sentTimes cs = [] →
       (TimeRecord.applyCalls TimeRecord.init cs).get_elapsed_time_sent = none) ∧
    (∀ f l, (sentTimes cs).head? = some f → (sentTimes cs).getLast? = some l →
       (TimeRecord.applyCalls TimeRecord.init cs).get_elapsed_time_sent
         = some ((strptime l).getD 0 - (strptime f).getD 0)) ∧
    (receivedTimes cs = [] →
       (TimeRecord.applyCalls TimeRecord.init cs).get_elapsed_time_received = none) ∧
    (∀ f l, (receivedTimes cs).head? = some f → (receivedTimes cs).getLast? = some l →
       (TimeRecord.applyCalls TimeRecord.init cs).get_elapsed_time_received
         = some ((strptime l).getD 0 - (strptime f).getD 0)) := by
  refine ⟨?_, ?_, ?_, ?_⟩
  · intro h
    have h1 : (TimeRecord.applyCalls TimeRecord.init cs).first_sent = none :=
      (applyCalls_first_sent_nil cs TimeRecord.init h).1
    simp [TimeRecord.get_elapsed_time_sent, h1]
  · intro f l hf hl
    have hne : ∀ u ∈ sentTimes cs, u ≠ "" :=
      fun u hu => strptime_isSome_ne_empty u (hs u hu)
    have h1 : (TimeRecord.applyCalls TimeRecord.init cs).first_sent = some f :=
      applyCalls_first_sent_head cs TimeRecord.init f hne rfl hf
    have h2 : (TimeRecord.applyCalls TimeRecord.init cs).last_sent = some l :=
      applyCalls_last_sent_getLast cs TimeRecord.init l hl
    obtain ⟨df, hdf⟩ := Option.isSome_iff_exists.mp (hs f (head?_mem_list hf))
    obtain ⟨dl, hdl⟩ := Option.isSome_iff_exists.mp (hs l (getLast?_mem_list hl))
    simp [TimeRecord.get_elapsed_time_sent, h1, h2, hdf, hdl]
  · intro h
    have h1 : (TimeRecord.applyCalls TimeRecord.init cs).first_received = none :=
      (applyCalls_first_received_nil cs TimeRecord.init h).1
    simp [TimeRecord.get_elapsed_time_received, h1]
  · intro f l hf hl
    have hne : ∀ u ∈ receivedTimes cs, u ≠ "" :=
      fun u hu => strptime_isSome_ne_empty u (hr u hu)
    have h1 : (TimeRecord.applyCalls TimeRecord.init cs).first_received = some f :=
      applyCalls_first_received_head cs TimeRecord.init f hne rfl hf
    have h2 : (TimeRecord.applyCalls TimeRecord.init cs).last_received = some l :=
      applyCalls_last_received_getLast cs TimeRecord.init l hl
    obtain ⟨df, hdf⟩ := Option.isSome_iff_exists.mp (hr f (head?_mem_list hf))
    obtain ⟨dl, hdl⟩ := Option.isSome_iff_exists.mp (hr l (getLast?_mem_list hl))
    simp [TimeRecord.get_elapsed_time_received, h1, h2, hdf, hdl]

/-- C5 witness: two sent updates in reverse chronological order produce
a negative elapsed duration (minus one second, in microseconds). -/
theorem get_elapsed_time_spec_witness :
    (TimeRecord.applyCalls TimeRecord.init
        [TRCall.sent ("2016-06-22 10:00:01.0"), TRCall.sent ("2016-06-22 10:00:00.0")]
      ).get_elapsed_time_sent = some (-1000000) :=
  ((get_elapsed_time_spec
      [TRCall.sent ("2016-06-22 10:00:01.0"), TRCall.sent ("2016-06-22 10:00:00.0")]
      (by decide) (by decide)).2.1
    ("2016-06-22 10:00:01.0") ("2016-06-22 10:00:00.0") rfl rfl).trans (by decide)

/-! ### C6: immutability of first timestamps -/

/-- C6 counterexample: over arbitrary timestamp values the claim "once
set, `first_sent` never changes" fails — a first `update_sent` with the
empty string sets `first_sent` to the empty string, which the source
guard `if not self.first_sent` treats as unset, so the next update
overwrites it. -/
theorem timeRecord_first_overwritten_cex :
    (TimeRecord.init.update_sent ("")).first_sent = some ("") ∧
    ((TimeRecord.init.update_sent ("")).update_sent ("2016-06-22 10:00:00.0")).first_sent
      = some ("2016-06-22 10:00:00.0") :=
  ⟨rfl, rfl⟩

/-- C6 (amended): once `first_sent` (resp. `first_received`) holds a
non-empty (truthy) timestamp string, no later sequence of update calls
in either direction changes it; and `last_sent` (resp. `last_received`)
is overwritten by every update in its direction with the supplied
argument, regardless of chronological order.  The restriction to
non-empty strings is forced by the counterexample: a `first_*` holding
the empty string is falsy for the source guard and is overwritten. -/
theorem timeRecord_first_persists (cs : List TRCall) (r : TimeRecord) (s t : String)
    (hs : s ≠ "") :
    (r.first_sent = some s → (TimeRecord.applyCalls r cs).first_sent = some s) ∧
    (r.first_received = some s → (TimeRecord.applyCalls r cs).first_received = some s) ∧
    (r.update_sent t).last_sent = some t ∧
    (r.update_received t).last_received = some t := by
  refine ⟨?_, ?_, update_sent_last r t, update_received_last r t⟩
  · intro h
    rw [applyCalls_first_sent_truthy cs r (by simp [pyTruthy, h, bne_iff_ne, hs]), h]
  · intro h
    rw [applyCalls_first_received_truthy cs r (by simp [pyTruthy, h, bne_iff_ne, hs]), h]

/-- C6 witness: a non-empty `first_sent` survives later updates in both
directions. -/
theorem timeRecord_first_persists_witness :
    (TimeRecord.applyCalls
        { first_sent := some ("2016-06-22 09:00:00.0"), first_received := none,
          last_sent := some ("2016-06-22 09:00:00.0"), last_received := none }
        [TRCall.received ("2016-06-22 10:00:00.0"), TRCall.sent ("2016-06-22 11:00:00.0")]
      ).first_sent = some ("2016-06-22 09:00:00.0") :=
  (timeRecord_first_persists
      [TRCall.received ("2016-06-22 10:00:00.0"), TRCall.sent ("2016-06-22 11:00:00.0")]
      { first_sent := some ("2016-06-22 09:00:00.0"), first_received := none,
        last_sent := some ("2016-06-22 09:00:00.0"), last_received := none }
      ("2016-06-22 09:00:00.0") ("x") (by decide)).1 rfl

end PcapStats
